import Mathlib

/-!
Verification of the relationship-aware resource discovery engine of the
`function-kubecore-schema` repository.  Each Python component relevant to the
checked properties is shallowly embedded as an executable Lean definition:

* `src/function/transitive_discovery.py` — circuit breaker, engine health,
  chain traversal;
* `src/function/cache.py` — response cache (`ContextCache`) and key generation;
* `src/function/k8s_client.py` — retry loop of `K8sClient._retry_request`;
* `src/function/resource_resolver.py` — `_parse_object_reference`,
  `resolve_resource`, `resolve_with_relationships`;
* `src/function/query_processor.py` — schema-block construction and the
  transitive merge.

Machine floats (`time.time()`, backoff delays) are modelled as rationals,
Python dicts as insertion-ordered association lists, and the cluster API as a
pure list of objects (the failure-free oracle); exceptions are modelled with
`Option`/sum results.
-/

namespace KubeCore

/-- `ResourceRef` from `resource_resolver.py`: `(api_version, kind, name,
namespace)`, namespace `None` for cluster-scoped resources.  Equality is over
all four fields, as in the Python dataclass. -/
structure ResourceRef where
  apiVersion : String
  kind : String
  name : String
  «namespace» : Option String
deriving DecidableEq, Repr

/-! ## Circuit breaker (`transitive_discovery.py`, class `CircuitBreaker`) -/

/-- The three breaker states: the Python strings `"closed"`, `"open"`,
`"half-open"`. -/
inductive BreakerState where
  | closed
  | opened
  | halfOpen
deriving DecidableEq, Repr

/-- State of one `CircuitBreaker` object: `failure_threshold`, `timeout`,
`failure_count`, `last_failure_time`, `state`.  Times are rationals standing
for the Python floats returned by `time.time()`. -/
structure CircuitBreaker where
  failureThreshold : Nat
  timeout : ℚ
  failureCount : Nat
  lastFailureTime : ℚ
  state : BreakerState
deriving DecidableEq, Repr

namespace CircuitBreaker

/-- `CircuitBreaker.__init__`: `failure_count = 0`, `last_failure_time = 0`,
`state = "closed"`. -/
def init (failureThreshold : Nat) (timeout : ℚ) : CircuitBreaker :=
  { failureThreshold := failureThreshold
    timeout := timeout
    failureCount := 0
    lastFailureTime := 0
    state := .closed }

/-- `CircuitBreaker.can_execute`, with the current time `now` made explicit.
Returns the (possibly mutated) breaker and the boolean result: in state
`open`, once `now - last_failure_time > timeout` the state flips to
`half-open` and the call is allowed. -/
def canExecute (cb : CircuitBreaker) (now : ℚ) : CircuitBreaker × Bool :=
  match cb.state with
  | .closed => (cb, true)
  | .opened =>
      if now - cb.lastFailureTime > cb.timeout then
        ({ cb with state := .halfOpen }, true)
      else
        (cb, false)
  | .halfOpen => (cb, true)

/-- `CircuitBreaker.record_success`: reset the count and close the breaker. -/
def recordSuccess (cb : CircuitBreaker) : CircuitBreaker :=
  { cb with failureCount := 0, state := .closed }

/-- `CircuitBreaker.record_failure` at time `now`: increment the count, stamp
the failure time, and open the breaker when the count reaches the
threshold. -/
def recordFailure (cb : CircuitBreaker) (now : ℚ) : CircuitBreaker :=
  if cb.failureCount + 1 ≥ cb.failureThreshold then
    { cb with failureCount := cb.failureCount + 1, lastFailureTime := now, state := .opened }
  else
    { cb with failureCount := cb.failureCount + 1, lastFailureTime := now }

/-- One observable interaction with a breaker: a `can_execute` probe at some
time, a recorded success, or a recorded failure at some time. -/
inductive Event where
  | probe (now : ℚ)
  | success
  | failure (now : ℚ)

/-- Apply one event to a breaker (the probe keeps only the state change of
`can_execute`). -/
def stepEvent (cb : CircuitBreaker) : Event → CircuitBreaker
  | .probe now => (cb.canExecute now).1
  | .success => cb.recordSuccess
  | .failure now => cb.recordFailure now

/-- Breakers reachable from `init` by any sequence of probes, successes and
failures — exactly the states a per-kind breaker of the engine can be in. -/
inductive Reachable : CircuitBreaker → Prop where
  | init (threshold : Nat) (timeout : ℚ) : Reachable (init threshold timeout)
  | step (cb : CircuitBreaker) (e : Event) : Reachable cb → Reachable (stepEvent cb e)

/-- Apply `record_failure` for each time in the list, in order (a run of
consecutive failures). -/
def recordFailures (cb : CircuitBreaker) : List ℚ → CircuitBreaker
  | [] => cb
  | t :: ts => recordFailures (cb.recordFailure t) ts

end CircuitBreaker

/-- `TransitiveDiscoveryEngine._search_resources_with_ref` consults the
breaker before the List call: with the breaker feature enabled, the List
request for a kind is issued exactly when `can_execute()` returns true.  This
predicate captures "a List call on this kind's breaker is issued at time
`now`". -/
def searchIssuesList (breakerEnabled : Bool) (cb : CircuitBreaker) (now : ℚ) : Bool :=
  if breakerEnabled then (cb.canExecute now).2 else true

namespace CircuitBreaker

theorem recordFailure_count (cb : CircuitBreaker) (t : ℚ) :
    (recordFailure cb t).failureCount = cb.failureCount + 1 := by
  unfold recordFailure; split <;> rfl

theorem recordFailure_threshold (cb : CircuitBreaker) (t : ℚ) :
    (recordFailure cb t).failureThreshold = cb.failureThreshold := by
  unfold recordFailure; split <;> rfl

theorem recordFailures_count (ts : List ℚ) (cb : CircuitBreaker) :
    (recordFailures cb ts).failureCount = cb.failureCount + ts.length := by
  induction ts generalizing cb with
  | nil => simp [recordFailures]
  | cons t ts ih =>
      simp only [recordFailures, ih, recordFailure_count, List.length_cons]
      omega

theorem recordFailures_threshold (ts : List ℚ) (cb : CircuitBreaker) :
    (recordFailures cb ts).failureThreshold = cb.failureThreshold := by
  induction ts generalizing cb with
  | nil => rfl
  | cons t ts ih => simp only [recordFailures, ih, recordFailure_threshold]

/-- After a nonempty run of failures that brings the count to the threshold,
the state is `open`. -/
theorem recordFailures_opens (ts : List ℚ) (cb : CircuitBreaker)
    (hne : ts ≠ [])
    (hth : cb.failureThreshold ≤ cb.failureCount + ts.length) :
    (recordFailures cb ts).state = .opened := by
  induction ts generalizing cb with
  | nil => exact absurd rfl hne
  | cons t ts ih =>
      cases ts with
      | nil =>
          simp only [recordFailures]
          unfold recordFailure
          simp only [List.length_cons, List.length_nil] at hth
          have : cb.failureCount + 1 ≥ cb.failureThreshold := by omega
          simp [this]
      | cons t' ts' =>
          simp only [recordFailures]
          apply ih _ (by simp)
          simp only [recordFailure_count, recordFailure_threshold,
            List.length_cons] at hth ⊢
          omega

/-- Invariant of reachable breakers: whenever the state is `open` or
`half-open`, the failure count has reached the threshold. -/
theorem reachable_invariant (cb : CircuitBreaker) (h : Reachable cb) :
    (cb.state = .opened ∨ cb.state = .halfOpen) → cb.failureThreshold ≤ cb.failureCount := by
  induction h with
  | init threshold timeout =>
      intro hs
      rcases hs with hs | hs <;> simp [CircuitBreaker.init] at hs
  | step cb e _ ih =>
      intro hs
      cases e with
      | probe now =>
          simp only [stepEvent, canExecute] at hs ⊢
          cases hst : cb.state with
          | closed =>
              simp only [hst] at hs
              rcases hs with hs | hs <;> exact absurd hs (by simp)
          | opened =>
              simp only [hst] at hs ⊢
              by_cases hc : now - cb.lastFailureTime > cb.timeout
              · simp only [if_pos hc]
                exact ih (Or.inl hst)
              · simp only [if_neg hc]
                exact ih (Or.inl hst)
          | halfOpen =>
              simp only [hst] at hs ⊢
              exact ih (Or.inr hst)
      | success => simp [stepEvent, recordSuccess] at hs
      | failure now =>
          simp only [stepEvent] at hs ⊢
          unfold recordFailure at hs ⊢
          split at hs
          · next hge =>
              split
              · next => simpa using hge
              · next hlt => exact absurd hge hlt
          · next hlt =>
              simp only at hs
              have hc : cb.state = .opened ∨ cb.state = .halfOpen := hs
              have := ih hc
              split <;> simp only <;> omega

end CircuitBreaker

/-- C4: after `failureThreshold` consecutive recorded failures the breaker is
open and `_search_resources_with_ref` issues no List call for that kind while
the cooldown has not elapsed; once `now - last_failure_time > timeout` the
probe turns the breaker half-open and allows the trial call; a recorded
success then closes the breaker, and a recorded failure reopens it (for any
reachable half-open breaker). -/
theorem transitive_breaker_law (cb : CircuitBreaker) (ts : List ℚ)
    (hlen : ts.length = cb.failureThreshold) (hpos : 0 < cb.failureThreshold) :
    (CircuitBreaker.recordFailures cb ts).state = .opened
    ∧ (∀ now : ℚ,
        now - (CircuitBreaker.recordFailures cb ts).lastFailureTime ≤
          (CircuitBreaker.recordFailures cb ts).timeout →
        searchIssuesList true (CircuitBreaker.recordFailures cb ts) now = false)
    ∧ (∀ now : ℚ,
        now - (CircuitBreaker.recordFailures cb ts).lastFailureTime >
          (CircuitBreaker.recordFailures cb ts).timeout →
        ((CircuitBreaker.recordFailures cb ts).canExecute now).1.state = .halfOpen
        ∧ searchIssuesList true (CircuitBreaker.recordFailures cb ts) now = true)
    ∧ (∀ cb' : CircuitBreaker, cb'.state = .halfOpen →
        cb'.recordSuccess.state = .closed)
    ∧ (∀ cb' : CircuitBreaker, CircuitBreaker.Reachable cb' → cb'.state = .halfOpen →
        ∀ t : ℚ, (cb'.recordFailure t).state = .opened) := by
  have hne : ts ≠ [] := by
    intro hnil; rw [hnil] at hlen; simp at hlen; omega
  have hopen : (CircuitBreaker.recordFailures cb ts).state = .opened :=
    CircuitBreaker.recordFailures_opens ts cb hne (by omega)
  refine ⟨hopen, ?_, ?_, ?_, ?_⟩
  · intro now hcool
    simp only [searchIssuesList, CircuitBreaker.canExecute, hopen, if_true]
    have : ¬ (now - (CircuitBreaker.recordFailures cb ts).lastFailureTime >
        (CircuitBreaker.recordFailures cb ts).timeout) := by linarith
    simp [this]
  · intro now hcool
    simp only [searchIssuesList, CircuitBreaker.canExecute, hopen, if_true]
    simp [hcool]
  · intro cb' _
    simp [CircuitBreaker.recordSuccess]
  · intro cb' hreach hhalf t
    have hth : cb'.failureThreshold ≤ cb'.failureCount :=
      CircuitBreaker.reachable_invariant cb' hreach (Or.inr hhalf)
    unfold CircuitBreaker.recordFailure
    have : cb'.failureCount + 1 ≥ cb'.failureThreshold := by omega
    simp [this]

theorem transitive_breaker_law_witness :
    (CircuitBreaker.recordFailures (CircuitBreaker.init 2 60) [1, 2]).state = .opened :=
  (transitive_breaker_law (CircuitBreaker.init 2 60) [1, 2] rfl (by decide)).1

/-! ## Engine health (`TransitiveDiscoveryEngine.is_healthy` and
`get_performance_stats`) -/

/-- The engine counters read by `is_healthy`: `_total_api_calls`,
`_failed_api_calls`, and the per-kind breakers in `_circuit_breakers`. -/
structure EngineCounters where
  totalApiCalls : Nat
  failedApiCalls : Nat
  breakers : List CircuitBreaker

/-- Number of breakers currently in state `"open"` (the generator expression
inside `is_healthy`). -/
def openBreakerCount (bs : List CircuitBreaker) : Nat :=
  (bs.filter fun b => decide (b.state = .opened)).length

/-- `TransitiveDiscoveryEngine.is_healthy`, parameterized over
`config.circuit_breaker_enabled`.  With zero API calls it returns healthy;
otherwise it computes `success_rate = (total - failed) / total` (float
division, modelled over ℚ) and reports unhealthy when the rate is below 0.5
or when `open_breakers > len(breakers) / 2`. -/
def isHealthy (circuitBreakerEnabled : Bool) (e : EngineCounters) : Bool :=
  if e.totalApiCalls = 0 then true
  else if ((e.totalApiCalls : ℚ) - (e.failedApiCalls : ℚ)) / (e.totalApiCalls : ℚ)
      < 1 / 2 then false
  else if circuitBreakerEnabled then
    if (openBreakerCount e.breakers : ℚ) > (e.breakers.length : ℚ) / 2 then false
    else true
  else true

/-- C10: with breakers enabled and at least one recorded API call, the health
check reports unhealthy exactly when the recorded success rate is below 0.5
or more than half of the per-kind breakers are open.  (With zero recorded
calls `is_healthy` returns healthy unconditionally.) -/
theorem is_healthy_iff (e : EngineCounters) (h : 0 < e.totalApiCalls) :
    isHealthy true e = false ↔
      (((e.totalApiCalls : ℚ) - (e.failedApiCalls : ℚ)) / (e.totalApiCalls : ℚ) < 1 / 2
        ∨ 2 * openBreakerCount e.breakers > e.breakers.length) := by
  have hne : e.totalApiCalls ≠ 0 := Nat.pos_iff_ne_zero.mp h
  have hhalf : ((openBreakerCount e.breakers : ℚ) > (e.breakers.length : ℚ) / 2)
      ↔ 2 * openBreakerCount e.breakers > e.breakers.length := by
    rw [gt_iff_lt, div_lt_iff₀ (by norm_num : (0:ℚ) < 2)]
    constructor
    · intro hq
      have : (e.breakers.length : ℚ) < ((2 * openBreakerCount e.breakers : Nat) : ℚ) := by
        push_cast; linarith
      exact_mod_cast this
    · intro hn
      have : ((e.breakers.length : Nat) : ℚ) < ((2 * openBreakerCount e.breakers : Nat) : ℚ) := by
        exact_mod_cast hn
      push_cast at this; linarith
  unfold isHealthy
  rw [if_neg hne]
  by_cases hrate : ((e.totalApiCalls : ℚ) - (e.failedApiCalls : ℚ)) / (e.totalApiCalls : ℚ) < 1 / 2
  · rw [if_pos hrate]
    exact iff_of_true rfl (Or.inl hrate)
  · rw [if_neg hrate, if_pos rfl]
    by_cases hopen : (openBreakerCount e.breakers : ℚ) > (e.breakers.length : ℚ) / 2
    · rw [if_pos hopen]
      exact iff_of_true rfl (Or.inr (hhalf.mp hopen))
    · rw [if_neg hopen]
      refine iff_of_false (by simp) ?_
      rintro (hc | hc)
      · exact hrate hc
      · exact hopen (hhalf.mpr hc)

theorem is_healthy_iff_witness : isHealthy true ⟨10, 6, []⟩ = false :=
  (is_healthy_iff ⟨10, 6, []⟩ (by decide)).mpr (Or.inl (by norm_num))

/-! ## Retry loop (`k8s_client.py`, `K8sClient._retry_request`) -/

/-- Outcome of one executed attempt: normal return, `ApiException` with an
HTTP status, or any other exception. -/
inductive Outcome where
  | success
  | apiError (status : Nat)
  | genericError
deriving DecidableEq, Repr

/-- How `_retry_request` ends: normal return, one of the three typed
non-retryable errors, or `K8sConnectionError` after exhausting the budget. -/
inductive RetryResult where
  | ok
  | authError
  | permError
  | notFoundError
  | connError
deriving DecidableEq, Repr

/-- Observable trace of one `_retry_request` call: the final result, how many
attempts were executed, and the backoff sleeps performed between attempts. -/
structure RetryTrace where
  result : RetryResult
  attemptsMade : Nat
  sleeps : List ℚ
deriving DecidableEq, Repr

/-- An outcome the loop retries: any `ApiException` whose status is not 401,
403 or 404, and every non-`ApiException` exception. -/
def retryableOutcome : Outcome → Bool
  | .success => false
  | .apiError s => !(s == 401 || s == 403 || s == 404)
  | .genericError => true

/-- Body of the `for attempt in range(max_retries + 1)` loop of
`_retry_request`.  `outcomes n` is what the n-th executed attempt does;
`fuel` is the number of loop iterations still available (the top-level call
passes `maxRetries + 1`, so the fuel-exhausted base case is reached exactly
when the loop ends and `K8sConnectionError` is raised).  Statuses 401/403/404
raise the typed errors immediately; other `ApiException`s and generic
exceptions sleep `retry_delay * 2 ** attempt` and continue when
`attempt < max_retries` (the two Python `except` blocks both carry this
backoff logic). -/
def retryAux (maxRetries : Nat) (retryDelay : ℚ) (outcomes : Nat → Outcome)
    (attempt : Nat) : Nat → RetryTrace
  | 0 => ⟨.connError, attempt, []⟩
  | fuel + 1 =>
    match outcomes attempt with
    | .success => ⟨.ok, attempt + 1, []⟩
    | .apiError s =>
        if s = 401 then ⟨.authError, attempt + 1, []⟩
        else if s = 403 then ⟨.permError, attempt + 1, []⟩
        else if s = 404 then ⟨.notFoundError, attempt + 1, []⟩
        else if attempt < maxRetries then
          ⟨(retryAux maxRetries retryDelay outcomes (attempt + 1) fuel).result,
           (retryAux maxRetries retryDelay outcomes (attempt + 1) fuel).attemptsMade,
           retryDelay * 2 ^ attempt
             :: (retryAux maxRetries retryDelay outcomes (attempt + 1) fuel).sleeps⟩
        else ⟨.connError, attempt + 1, []⟩
    | .genericError =>
        if attempt < maxRetries then
          ⟨(retryAux maxRetries retryDelay outcomes (attempt + 1) fuel).result,
           (retryAux maxRetries retryDelay outcomes (attempt + 1) fuel).attemptsMade,
           retryDelay * 2 ^ attempt
             :: (retryAux maxRetries retryDelay outcomes (attempt + 1) fuel).sleeps⟩
        else ⟨.connError, attempt + 1, []⟩

/-- `K8sClient._retry_request` with `max_retries` and `retry_delay`. -/
def retryRequest (maxRetries : Nat) (retryDelay : ℚ) (outcomes : Nat → Outcome) :
    RetryTrace :=
  retryAux maxRetries retryDelay outcomes 0 (maxRetries + 1)

theorem retryAux_attempts_le (maxRetries : Nat) (retryDelay : ℚ)
    (outcomes : Nat → Outcome) (fuel : Nat) : ∀ attempt,
    (retryAux maxRetries retryDelay outcomes attempt fuel).attemptsMade ≤ attempt + fuel := by
  induction fuel with
  | zero => intro attempt; simp [retryAux]
  | succ fuel ih =>
      intro attempt
      unfold retryAux
      cases h : outcomes attempt with
      | success => simp; try omega
      | genericError =>
          simp only
          split
          · have := ih (attempt + 1)
            simp only at this ⊢
            omega
          · simp; try omega
      | apiError s =>
          simp only
          split
          · simp; try omega
          · split
            · simp; try omega
            · split
              · simp; try omega
              · split
                · have := ih (attempt + 1)
                  simp only at this ⊢
                  omega
                · simp; try omega

theorem retryAux_attempts_ge (maxRetries : Nat) (retryDelay : ℚ)
    (outcomes : Nat → Outcome) (fuel : Nat) : ∀ attempt, 1 ≤ fuel →
    attempt + 1 ≤ (retryAux maxRetries retryDelay outcomes attempt fuel).attemptsMade := by
  induction fuel with
  | zero => intro _ h; omega
  | succ fuel ih =>
      intro attempt _
      unfold retryAux
      cases h : outcomes attempt with
      | success => simp
      | genericError =>
          simp only
          split
          · cases fuel with
            | zero => simp [retryAux]
            | succ fuel' =>
                have := ih (attempt + 1) (by omega)
                simp only at this ⊢
                omega
          · simp
      | apiError s =>
          simp only
          split
          · simp
          · split
            · simp
            · split
              · simp
              · split
                · cases fuel with
                  | zero => simp [retryAux]
                  | succ fuel' =>
                      have := ih (attempt + 1) (by omega)
                      simp only at this ⊢
                      omega
                · simp

theorem retryAux_sleeps (maxRetries : Nat) (retryDelay : ℚ)
    (outcomes : Nat → Outcome) (fuel : Nat) : ∀ attempt,
    attempt + fuel = maxRetries + 1 →
    (retryAux maxRetries retryDelay outcomes attempt fuel).sleeps
      = (List.range
          ((retryAux maxRetries retryDelay outcomes attempt fuel).attemptsMade - 1 - attempt)).map
          (fun i => retryDelay * 2 ^ (attempt + i)) := by
  induction fuel with
  | zero =>
      intro attempt _
      simp [retryAux]
  | succ fuel ih =>
      intro attempt hinv
      unfold retryAux
      have hleaf : ∀ r : RetryResult,
          (⟨r, attempt + 1, []⟩ : RetryTrace).sleeps
            = (List.range ((⟨r, attempt + 1, []⟩ : RetryTrace).attemptsMade - 1 - attempt)).map
                (fun i => retryDelay * 2 ^ (attempt + i)) := by
        intro r; simp
      cases h : outcomes attempt with
      | success => exact hleaf .ok
      | genericError =>
          simp only
          split
          · next hlt =>
              have hfuel : 1 ≤ fuel := by omega
              have hge := retryAux_attempts_ge maxRetries retryDelay outcomes fuel (attempt + 1) hfuel
              have hrec := ih (attempt + 1) (by omega)
              simp only
              rw [hrec]
              have hk : (retryAux maxRetries retryDelay outcomes (attempt + 1) fuel).attemptsMade - 1 - attempt
                  = ((retryAux maxRetries retryDelay outcomes (attempt + 1) fuel).attemptsMade - 1 - (attempt + 1)) + 1 := by
                omega
              rw [hk, List.range_succ_eq_map, List.map_cons, List.map_map]
              refine congrArg₂ List.cons (by norm_num) ?_
              apply List.map_congr_left
              intro a _
              show retryDelay * 2 ^ (attempt + 1 + a) = retryDelay * 2 ^ (attempt + (a + 1))
              rw [show attempt + 1 + a = attempt + (a + 1) by omega]
          · exact hleaf .connError
      | apiError s =>
          simp only
          split
          · exact hleaf .authError
          · split
            · exact hleaf .permError
            · split
              · exact hleaf .notFoundError
              · split
                · next hlt =>
                    have hfuel : 1 ≤ fuel := by omega
                    have hge := retryAux_attempts_ge maxRetries retryDelay outcomes fuel (attempt + 1) hfuel
                    have hrec := ih (attempt + 1) (by omega)
                    simp only
                    rw [hrec]
                    have hk : (retryAux maxRetries retryDelay outcomes (attempt + 1) fuel).attemptsMade - 1 - attempt
                        = ((retryAux maxRetries retryDelay outcomes (attempt + 1) fuel).attemptsMade - 1 - (attempt + 1)) + 1 := by
                      omega
                    rw [hk, List.range_succ_eq_map, List.map_cons, List.map_map]
                    refine congrArg₂ List.cons (by norm_num) ?_
                    apply List.map_congr_left
                    intro a _
                    show retryDelay * 2 ^ (attempt + 1 + a) = retryDelay * 2 ^ (attempt + (a + 1))
                    rw [show attempt + 1 + a = attempt + (a + 1) by omega]
                · exact hleaf .connError

theorem retryAux_first_decides (maxRetries : Nat) (retryDelay : ℚ)
    (outcomes : Nat → Outcome) (fuel : Nat) : ∀ attempt j,
    attempt + fuel = maxRetries + 1 → attempt ≤ j → j ≤ maxRetries →
    (∀ i, attempt ≤ i → i < j → retryableOutcome (outcomes i) = true) →
    ((outcomes j = .apiError 401 →
        (retryAux maxRetries retryDelay outcomes attempt fuel).result = .authError
        ∧ (retryAux maxRetries retryDelay outcomes attempt fuel).attemptsMade = j + 1)
     ∧ (outcomes j = .apiError 403 →
        (retryAux maxRetries retryDelay outcomes attempt fuel).result = .permError
        ∧ (retryAux maxRetries retryDelay outcomes attempt fuel).attemptsMade = j + 1)
     ∧ (outcomes j = .apiError 404 →
        (retryAux maxRetries retryDelay outcomes attempt fuel).result = .notFoundError
        ∧ (retryAux maxRetries retryDelay outcomes attempt fuel).attemptsMade = j + 1)
     ∧ (outcomes j = .success →
        (retryAux maxRetries retryDelay outcomes attempt fuel).result = .ok
        ∧ (retryAux maxRetries retryDelay outcomes attempt fuel).attemptsMade = j + 1)) := by
  induction fuel with
  | zero =>
      intro attempt j hinv haj hj _
      omega
  | succ fuel ih =>
      intro attempt j hinv haj hj hret
      rcases Nat.eq_or_lt_of_le haj with heq | hlt
      · subst heq
        unfold retryAux
        refine ⟨?_, ?_, ?_, ?_⟩ <;> intro ho <;> rw [ho] <;> simp
      · have hretA : retryableOutcome (outcomes attempt) = true :=
          hret attempt le_rfl hlt
        have hlt' : attempt < maxRetries := by omega
        unfold retryAux
        cases h : outcomes attempt with
        | success => rw [h] at hretA; simp [retryableOutcome] at hretA
        | genericError =>
            simp only [if_pos hlt']
            exact ih (attempt + 1) j (by omega) (by omega) hj
              (fun i h1 h2 => hret i (by omega) h2)
        | apiError s =>
            rw [h] at hretA
            simp only [retryableOutcome, Bool.not_eq_true', Bool.or_eq_false_iff,
              beq_eq_false_iff_ne, ne_eq] at hretA
            obtain ⟨⟨h401, h403⟩, h404⟩ := hretA
            simp only [if_neg h401, if_neg h403, if_neg h404, if_pos hlt']
            exact ih (attempt + 1) j (by omega) (by omega) hj
              (fun i h1 h2 => hret i (by omega) h2)

theorem retryAux_exhausted (maxRetries : Nat) (retryDelay : ℚ)
    (outcomes : Nat → Outcome) (fuel : Nat) : ∀ attempt,
    attempt + fuel = maxRetries + 1 →
    (∀ i, i ≤ maxRetries → retryableOutcome (outcomes i) = true) →
    (retryAux maxRetries retryDelay outcomes attempt fuel).result = .connError
    ∧ (retryAux maxRetries retryDelay outcomes attempt fuel).attemptsMade = maxRetries + 1 := by
  induction fuel with
  | zero =>
      intro attempt hinv _
      unfold retryAux
      exact ⟨rfl, show attempt = maxRetries + 1 by omega⟩
  | succ fuel ih =>
      intro attempt hinv hret
      have hretA : retryableOutcome (outcomes attempt) = true :=
        hret attempt (by omega)
      unfold retryAux
      cases h : outcomes attempt with
      | success => rw [h] at hretA; simp [retryableOutcome] at hretA
      | genericError =>
          simp only
          by_cases hlt : attempt < maxRetries
          · simp only [if_pos hlt]
            have := ih (attempt + 1) (by omega) hret
            exact this
          · simp only [if_neg hlt]
            exact ⟨trivial, by omega⟩
      | apiError s =>
          rw [h] at hretA
          simp only [retryableOutcome, Bool.not_eq_true', Bool.or_eq_false_iff,
            beq_eq_false_iff_ne, ne_eq] at hretA
          obtain ⟨⟨h401, h403⟩, h404⟩ := hretA
          simp only [if_neg h401, if_neg h403, if_neg h404]
          by_cases hlt : attempt < maxRetries
          · simp only [if_pos hlt]
            have := ih (attempt + 1) (by omega) hret
            exact this
          · simp only [if_neg hlt]
            exact ⟨trivial, by omega⟩

/-- C5 counterexample: `_retry_request` iterates `range(max_retries + 1)`, so
with `max_retries = 1` and every attempt failing transiently it executes two
attempts — more than the claimed bound of `maxRetries` attempts. -/
theorem retry_request_attempts_counterexample :
    (retryRequest 1 1 fun _ => Outcome.genericError).attemptsMade = 2
    ∧ ¬ ((retryRequest 1 1 fun _ => Outcome.genericError).attemptsMade ≤ 1) := by
  have h : (retryRequest 1 1 fun _ => Outcome.genericError).attemptsMade = 2 := rfl
  exact ⟨h, by rw [h]; omega⟩

/-- C5 (amended): `_retry_request` executes at most `maxRetries + 1` attempts
(one initial attempt plus up to `maxRetries` retries); between attempts it
sleeps exactly `retry_delay * 2 ** attempt` for the attempts it retried;
401 / 403 / 404 responses end the call immediately with the corresponding
typed error and no further attempt; and when every attempt fails retryably
(5xx-equivalent or network error) the budget is exhausted after
`maxRetries + 1` attempts and a connection error is raised. -/
theorem retry_request_spec (maxRetries : Nat) (retryDelay : ℚ)
    (outcomes : Nat → Outcome) :
    (retryRequest maxRetries retryDelay outcomes).attemptsMade ≤ maxRetries + 1
    ∧ (retryRequest maxRetries retryDelay outcomes).sleeps
        = (List.range ((retryRequest maxRetries retryDelay outcomes).attemptsMade - 1)).map
            (fun i => retryDelay * 2 ^ i)
    ∧ (∀ j, j ≤ maxRetries →
        (∀ i, i < j → retryableOutcome (outcomes i) = true) →
        (outcomes j = .apiError 401 →
          (retryRequest maxRetries retryDelay outcomes).result = .authError
          ∧ (retryRequest maxRetries retryDelay outcomes).attemptsMade = j + 1)
        ∧ (outcomes j = .apiError 403 →
          (retryRequest maxRetries retryDelay outcomes).result = .permError
          ∧ (retryRequest maxRetries retryDelay outcomes).attemptsMade = j + 1)
        ∧ (outcomes j = .apiError 404 →
          (retryRequest maxRetries retryDelay outcomes).result = .notFoundError
          ∧ (retryRequest maxRetries retryDelay outcomes).attemptsMade = j + 1)
        ∧ (outcomes j = .success →
          (retryRequest maxRetries retryDelay outcomes).result = .ok
          ∧ (retryRequest maxRetries retryDelay outcomes).attemptsMade = j + 1))
    ∧ ((∀ i, i ≤ maxRetries → retryableOutcome (outcomes i) = true) →
        (retryRequest maxRetries retryDelay outcomes).result = .connError
        ∧ (retryRequest maxRetries retryDelay outcomes).attemptsMade = maxRetries + 1) := by
  refine ⟨?_, ?_, ?_, ?_⟩
  · have := retryAux_attempts_le maxRetries retryDelay outcomes (maxRetries + 1) 0
    simpa [retryRequest] using this
  · have := retryAux_sleeps maxRetries retryDelay outcomes (maxRetries + 1) 0 (by omega)
    simpa [retryRequest] using this
  · intro j hj hret
    exact retryAux_first_decides maxRetries retryDelay outcomes (maxRetries + 1) 0 j
      (by omega) (by omega) hj (fun i _ h2 => hret i h2)
  · intro hret
    exact retryAux_exhausted maxRetries retryDelay outcomes (maxRetries + 1) 0
      (by omega) hret

theorem retry_request_spec_witness :
    (retryRequest 2 1 fun _ => Outcome.genericError).result = RetryResult.connError
    ∧ (retryRequest 2 1 fun _ => Outcome.genericError).attemptsMade = 2 + 1 :=
  (retry_request_spec 2 1 fun _ => Outcome.genericError).2.2.2 (fun _ _ => rfl)

/-! ## Response cache (`cache.py`, class `ContextCache`) -/

/-- One `CacheEntry`: cached payload (opaque, tagged by a number), insertion
timestamp, hit counter. -/
structure CacheEntry where
  data : Nat
  timestamp : ℚ
  hits : Nat
deriving DecidableEq, Repr

/-- The Python dict `self.cache` in iteration (= insertion) order. -/
abbrev ContextCacheStore := List (String × CacheEntry)

/-- Accumulator loop of Python's `min(self.cache.keys(), key=timestamp)`:
`min` keeps the earliest element unless a strictly smaller timestamp
appears. -/
def oldestKeyAux (best : String × ℚ) : ContextCacheStore → String
  | [] => best.1
  | (k, e) :: rest =>
      if e.timestamp < best.2 then oldestKeyAux (k, e.timestamp) rest
      else oldestKeyAux best rest

/-- The key `_evict_lru` deletes: the first key with the minimal timestamp. -/
def oldestKey : ContextCacheStore → Option String
  | [] => none
  | (k, e) :: rest => some (oldestKeyAux (k, e.timestamp) rest)

/-- `ContextCache._evict_lru`: delete the oldest entry (no-op on an empty
cache). -/
def evictLru (c : ContextCacheStore) : ContextCacheStore :=
  match oldestKey c with
  | none => c
  | some k => c.eraseP (fun p => p.1 == k)

/-- The store after the capacity check at the top of `ContextCache.set`:
evict once when `len(self.cache) >= max_entries`. -/
def cacheSetStore (maxEntries : Nat) (c : ContextCacheStore) : ContextCacheStore :=
  if c.length ≥ maxEntries then evictLru c else c

/-- `ContextCache.set`: evict once when `len(self.cache) >= max_entries`,
then store a fresh entry (hits 0, timestamp `now`); assignment to an existing
key overwrites in place, otherwise appends. -/
def cacheSet (maxEntries : Nat) (c : ContextCacheStore) (key : String)
    (data : Nat) (now : ℚ) : ContextCacheStore :=
  if (cacheSetStore maxEntries c).any (fun p => p.1 == key) then
    (cacheSetStore maxEntries c).map
      (fun p => if p.1 = key then (key, ⟨data, now, 0⟩) else p)
  else
    cacheSetStore maxEntries c ++ [(key, ⟨data, now, 0⟩)]

theorem oldestKeyAux_spec (l : ContextCacheStore) : ∀ (b : String) (tb : ℚ),
    (oldestKeyAux (b, tb) l = b ∧ ∀ p ∈ l, tb ≤ p.2.timestamp)
    ∨ ∃ pre k e post, l = pre ++ (k, e) :: post
        ∧ oldestKeyAux (b, tb) l = k
        ∧ e.timestamp < tb
        ∧ (∀ p ∈ pre, e.timestamp < p.2.timestamp)
        ∧ (∀ p ∈ post, e.timestamp ≤ p.2.timestamp) := by
  induction l with
  | nil => intro b tb; left; exact ⟨rfl, by simp⟩
  | cons q rest ih =>
      intro b tb
      obtain ⟨k0, e0⟩ := q
      by_cases hq : e0.timestamp < tb
      · have step : oldestKeyAux (b, tb) ((k0, e0) :: rest)
            = oldestKeyAux (k0, e0.timestamp) rest := by
          simp [oldestKeyAux, hq]
        rcases ih k0 e0.timestamp with ⟨heq, hmin⟩ | ⟨pre, k, e, post, hsplit, heq, hlt, hpre, hpost⟩
        · right
          refine ⟨[], k0, e0, rest, by simp, by rw [step, heq], hq, by simp, hmin⟩
        · right
          refine ⟨(k0, e0) :: pre, k, e, post, by simp [hsplit], by rw [step, heq], ?_, ?_, hpost⟩
          · exact lt_trans hlt hq
          · intro p hp
            rcases List.mem_cons.mp hp with hp | hp
            · rw [hp]; exact hlt
            · exact hpre p hp
      · have step : oldestKeyAux (b, tb) ((k0, e0) :: rest)
            = oldestKeyAux (b, tb) rest := by
          simp [oldestKeyAux, hq]
        push_neg at hq
        rcases ih b tb with ⟨heq, hmin⟩ | ⟨pre, k, e, post, hsplit, heq, hlt, hpre, hpost⟩
        · left
          refine ⟨by rw [step, heq], ?_⟩
          intro p hp
          rcases List.mem_cons.mp hp with hp | hp
          · rw [hp]; exact hq
          · exact hmin p hp
        · right
          refine ⟨(k0, e0) :: pre, k, e, post, by simp [hsplit], by rw [step, heq], hlt, ?_, hpost⟩
          intro p hp
          rcases List.mem_cons.mp hp with hp | hp
          · rw [hp]; exact lt_of_lt_of_le hlt hq
          · exact hpre p hp

/-- `oldestKey` returns the first key attaining the minimal timestamp,
exhibited by a structural split of the store. -/
theorem oldestKey_spec (c : ContextCacheStore) (hne : c ≠ []) :
    ∃ pre k e post, c = pre ++ (k, e) :: post
      ∧ oldestKey c = some k
      ∧ (∀ p ∈ pre, e.timestamp < p.2.timestamp)
      ∧ (∀ p ∈ c, e.timestamp ≤ p.2.timestamp) := by
  cases c with
  | nil => exact absurd rfl hne
  | cons q rest =>
      obtain ⟨k0, e0⟩ := q
      rcases oldestKeyAux_spec rest k0 e0.timestamp with ⟨heq, hmin⟩ |
        ⟨pre, k, e, post, hsplit, heq, hlt, hpre, hpost⟩
      · refine ⟨[], k0, e0, rest, by simp, ?_, by simp, ?_⟩
        · simp [oldestKey, heq]
        · intro p hp
          rcases List.mem_cons.mp hp with hp | hp
          · rw [hp]
          · exact hmin p hp
      · refine ⟨(k0, e0) :: pre, k, e, post, by simp [hsplit], ?_, ?_, ?_⟩
        · simp [oldestKey, heq]
        · intro p hp
          rcases List.mem_cons.mp hp with hp | hp
          · rw [hp]; exact hlt
          · exact hpre p hp
        · intro p hp
          rcases List.mem_cons.mp hp with hp | hp
          · rw [hp]; exact le_of_lt hlt
          · rcases List.mem_append.mp (hsplit ▸ hp) with hp' | hp'
            · exact le_of_lt (hpre p hp')
            · rcases List.mem_cons.mp hp' with hp'' | hp''
              · rw [hp'']
              · exact hpost p hp''

theorem eraseP_key_split (k : String) (e : CacheEntry) (post : ContextCacheStore) :
    ∀ pre : ContextCacheStore, (∀ p ∈ pre, p.1 ≠ k) →
    (pre ++ (k, e) :: post).eraseP (fun p => p.1 == k) = pre ++ post := by
  intro pre
  induction pre with
  | nil =>
      intro _
      simp [List.eraseP_cons]
  | cons q pre ih =>
      intro hpre
      have hq : q.1 ≠ k := hpre q (by simp)
      simp only [List.cons_append, List.eraseP_cons, beq_eq_false_iff_ne,
        show (q.1 == k) = false from beq_eq_false_iff_ne.mpr hq, cond_false]
      rw [ih (fun p hp => hpre p (by simp [hp]))]

/-- C7 counterexample: with two entries of equal (oldest) timestamp where the
first-inserted has the higher hit count, `set` at capacity evicts the
first-inserted entry `"a"` (hits 5) and keeps `"b"` (hits 0), whereas the
claimed tie-break by lowest hit count demands evicting `"b"`. -/
theorem cache_set_eviction_counterexample :
    ((cacheSet 2 [("a", ⟨0, 1, 5⟩), ("b", ⟨0, 1, 0⟩)] "c" 7 2).lookup "b").isSome = true
    ∧ (cacheSet 2 [("a", ⟨0, 1, 5⟩), ("b", ⟨0, 1, 0⟩)] "c" 7 2).lookup "a" = none := by
  decide

/-- C7 (amended): a `set` on a cache at capacity with a fresh key evicts
exactly one entry before inserting, namely the first-inserted entry among
those with the oldest insert timestamp (the hit count plays no role in the
tie-break); the cache size is unchanged. -/
theorem cache_set_at_capacity (maxEntries : Nat) (c : ContextCacheStore)
    (key : String) (data : Nat) (now : ℚ)
    (hcap : c.length = maxEntries) (hpos : 0 < maxEntries)
    (hnodup : (c.map Prod.fst).Nodup)
    (hfresh : ∀ p ∈ c, p.1 ≠ key) :
    ∃ pre k e post,
      c = pre ++ (k, e) :: post
      ∧ (∀ p ∈ pre, e.timestamp < p.2.timestamp)
      ∧ (∀ p ∈ c, e.timestamp ≤ p.2.timestamp)
      ∧ cacheSet maxEntries c key data now
          = (pre ++ post) ++ [(key, ⟨data, now, 0⟩)]
      ∧ (cacheSet maxEntries c key data now).length = maxEntries := by
  have hne : c ≠ [] := by
    intro h; rw [h] at hcap; simp at hcap; omega
  obtain ⟨pre, k, e, post, hsplit, holdest, hpre, hmin⟩ := oldestKey_spec c hne
  have hprek : ∀ p ∈ pre, p.1 ≠ k := by
    intro p hp heqk
    have hmapped : (pre.map Prod.fst ++ k :: post.map Prod.fst).Nodup := by
      have := hnodup
      rw [hsplit] at this
      simpa using this
    have hdisj := (List.nodup_append.mp hmapped).2.2
    exact hdisj (List.mem_map_of_mem Prod.fst hp) (heqk ▸ List.mem_cons_self k _)
  have hstore : cacheSetStore maxEntries c = pre ++ post := by
    unfold cacheSetStore
    rw [if_pos (by omega), evictLru, holdest, hsplit]
    show List.eraseP (fun p => p.1 == k) (pre ++ (k, e) :: post) = pre ++ post
    exact eraseP_key_split k e post pre hprek
  have hsub : ∀ p ∈ pre ++ post, p ∈ c := by
    intro p hp
    rw [hsplit]
    rcases List.mem_append.mp hp with h | h
    · exact List.mem_append.mpr (Or.inl h)
    · exact List.mem_append.mpr (Or.inr (List.mem_cons_of_mem _ h))
  have hany : ((pre ++ post).any (fun p => p.1 == key)) = false := by
    rw [List.any_eq_false]
    intro p hp
    simp [hfresh p (hsub p hp)]
  have hclen : pre.length + post.length + 1 = maxEntries := by
    have := hcap
    rw [hsplit] at this
    simp at this
    omega
  refine ⟨pre, k, e, post, hsplit, hpre, hmin, ?_, ?_⟩
  · unfold cacheSet
    rw [hstore, hany]
    simp
  · unfold cacheSet
    rw [hstore, hany]
    simp
    omega

theorem cache_set_at_capacity_witness :
    ∃ pre k e post,
      ([("a", (⟨0, 1, 5⟩ : CacheEntry)), ("b", ⟨0, 2, 0⟩)] : ContextCacheStore)
        = pre ++ (k, e) :: post
      ∧ (∀ p ∈ pre, e.timestamp < p.2.timestamp)
      ∧ (∀ p ∈ ([("a", (⟨0, 1, 5⟩ : CacheEntry)), ("b", ⟨0, 2, 0⟩)] : ContextCacheStore),
          e.timestamp ≤ p.2.timestamp)
      ∧ cacheSet 2 [("a", ⟨0, 1, 5⟩), ("b", ⟨0, 2, 0⟩)] "c" 0 7
          = (pre ++ post) ++ [("c", ⟨0, 7, 0⟩)]
      ∧ (cacheSet 2 [("a", ⟨0, 1, 5⟩), ("b", ⟨0, 2, 0⟩)] "c" 0 7).length = 2 :=
  cache_set_at_capacity 2 [("a", ⟨0, 1, 5⟩), ("b", ⟨0, 2, 0⟩)] "c" 0 7
    rfl (by decide) (by decide) (by decide)

/-! ## Cache key generation (`cache.py`, `ContextCache.generate_key`) -/

/-- The `targetRef` sub-dict of `context["discoveryHints"]` as read by
`generate_key` (`.get` of `kind`, `name`, `namespace`). -/
structure TargetHints where
  targetKind : Option String
  targetName : Option String
  targetNamespace : Option String

/-- The context keys `generate_key` reads: the `references` dict (each value
rendered by its Python repr, pre-serialized here as a string), the reverse
discovery flag and hints, and the transitive toggle and depth. -/
structure CacheKeyContext where
  references : Option (List (String × String))
  requiresReverseDiscovery : Bool
  discoveryHints : Option TargetHints
  enableTransitiveDiscovery : Option Bool
  transitiveMaxDepth : Option Int

/-- Stable insertion of a pair into a key-ascending list (Python `sorted` is
stable; dict keys are unique, so comparison never reaches the values). -/
def insertByKey (p : String × String) : List (String × String) → List (String × String)
  | [] => [p]
  | q :: rest => if p.1 < q.1 then p :: q :: rest else q :: insertByKey p rest

/-- `sorted(refs.items())`. -/
def sortByKey (l : List (String × String)) : List (String × String) :=
  l.foldr insertByKey []

/-- Stable insertion for `sorted(requested_schemas)`. -/
def insertString (s : String) : List String → List String
  | [] => [s]
  | q :: rest => if s < q then s :: q :: rest else q :: insertString s rest

/-- `sorted(requested_schemas)`. -/
def sortStrings (l : List String) : List String :=
  l.foldr insertString []

/-- Python `str(sorted_refs)`: the repr of the sorted list of `(key, value)`
tuples, with each value's repr carried verbatim in the model. -/
def pyReprSortedRefs (refs : List (String × String)) : String :=
  "[" ++ String.intercalate ", "
    ((sortByKey refs).map fun p =>
      "(" ++ ("\x27" ++ p.1 ++ "\x27") ++ ", " ++ p.2 ++ ")") ++ "]"

/-- Python `f"{x}"` for an optional string: `None` renders as `"None"`. -/
def optStr (o : Option String) : String := o.getD "None"

/-- `ContextCache.generate_key` up to (but not including) the final
`hashlib.md5(...).hexdigest()`: the joined `key_string` the md5 digest is
computed from.  `pyHash` is the process's builtin `hash` on strings (salted
per run via PYTHONHASHSEED), applied to `str(sorted_refs)` for the `refs:`
component. -/
def generateKeyString (pyHash : String → Int) (resourceType : String)
    (context : CacheKeyContext) (requestedSchemas : Option (List String))
    (discoveryMode : String) : String :=
  let comps1 := ["type:" ++ resourceType, "mode:" ++ discoveryMode]
  let comps2 := match context.references with
    | some refs => comps1 ++ ["refs:" ++ toString (pyHash (pyReprSortedRefs refs))]
    | none => comps1
  let comps3 :=
    if context.requiresReverseDiscovery then
      match context.discoveryHints with
      | some h => comps2 ++
          ["target:" ++ optStr h.targetKind ++ ":" ++ optStr h.targetName
            ++ ":" ++ optStr h.targetNamespace]
      | none => comps2
    else comps2
  let comps4 :=
    if context.enableTransitiveDiscovery.getD true then
      comps3 ++ ["transitive:enabled",
        "depth:" ++ toString (context.transitiveMaxDepth.getD 3)]
    else comps3
  let comps5 := match requestedSchemas with
    | some schemas =>
        if schemas.isEmpty then comps4
        else comps4 ++ ["schemas:" ++ String.intercalate ":" (sortStrings schemas)]
    | none => comps4
  String.intercalate "|" comps5

/-- C2: determinism of the response-cache key fails when the context carries a
`references` map.  The `refs:` component is
`hash(str(sorted(refs.items())))` with Python's builtin `hash`, which is
salted per process: two independent runs evaluate `hash` differently on the
same string, so the fingerprint string fed to md5 — and hence the emitted
key — differs between runs.  Without references the fingerprint string is
independent of the process hash (first conjunct); with references, two runs
whose string hashes differ produce different fingerprint strings (second
conjunct, instantiated with two admissible hash functions). -/
theorem generate_key_run_dependence :
    (∀ h1 h2 : String → Int,
      generateKeyString h1 "XApp"
          ⟨none, false, none, none, none⟩ (some ["kubEnv"]) "forward"
        = generateKeyString h2 "XApp"
          ⟨none, false, none, none, none⟩ (some ["kubEnv"]) "forward")
    ∧ generateKeyString (fun _ => 0) "XApp"
          ⟨some [("kubEnvRefs", "[\x7b'name': 'demo-dev', 'namespace': 'test'\x7d]")],
            false, none, none, none⟩ (some ["kubEnv"]) "forward"
        ≠ generateKeyString (fun _ => 1) "XApp"
          ⟨some [("kubEnvRefs", "[\x7b'name': 'demo-dev', 'namespace': 'test'\x7d]")],
            false, none, none, none⟩ (some ["kubEnv"]) "forward" := by
  refine ⟨fun h1 h2 => rfl, ?_⟩
  decide

/-! ## Reference parsing (`resource_resolver.py`,
`ResourceResolver._parse_object_reference`) -/

/-- A reference object: the Python dict, as ordered string key/value pairs
(every field of an object reference is a string). -/
abbrev RefObj := List (String × String)

/-- `ref_obj.get(k)`. -/
def refGet (refObj : RefObj) (k : String) : Option String :=
  (refObj.find? fun p => p.1 == k).map Prod.snd

/-- Python truthiness of an optional string: `None` and `""` are falsy. -/
def truthy : Option String → Bool
  | none => false
  | some s => !(s == "")

/-- Python `str(ref_obj)` for a dict of strings:
`\x7b'k': 'v', ...\x7d`. -/
def pyReprRefObj (refObj : RefObj) : String :=
  "\x7b" ++ String.intercalate ", "
    (refObj.map fun p => "\x27" ++ p.1 ++ "\x27: \x27" ++ p.2 ++ "\x27") ++ "\x7d"

/-- Substring test (`pat in s` in Python), over character lists. -/
def strContainsAux (pat : List Char) : List Char → Bool
  | [] => pat.isEmpty
  | c :: rest => pat.isPrefixOf (c :: rest) || strContainsAux pat rest

/-- `pat in s`. -/
def strContains (s pat : String) : Bool := strContainsAux pat.toList s.toList

/-- ASCII lower-casing, modelling Python `str.lower()` on the ASCII names the
platform uses. -/
def lowerChar (c : Char) : Char :=
  if 65 ≤ c.toNat ∧ c.toNat ≤ 90 then Char.ofNat (c.toNat + 32) else c

/-- `name.lower()`. -/
def lowerStr (s : String) : String := ⟨s.toList.map lowerChar⟩

/-- One heuristic branch condition of `_parse_object_reference`:
`reprPat in str(ref_obj) or namePat in name.lower()`. -/
def sniffCond (refObj : RefObj) (name : String) (reprPat namePat : String) : Bool :=
  strContains (pyReprRefObj refObj) reprPat || strContains (lowerStr name) namePat

/-- `ref_obj.get("namespace", default_namespace)`. -/
def pyNamespace (refObj : RefObj) (defaultNamespace : Option String) : Option String :=
  match refGet refObj "namespace" with
  | some v => some v
  | none => defaultNamespace

/-- `ResourceResolver._parse_object_reference`.  Inference by field-name /
name sniffing runs whenever `api_version` or `kind` is falsy; a matching
heuristic branch assigns both fields; the fallback keeps a truthy explicit
value (`api_version or "v1"`, `kind or "ConfigMap"`).  The name-pattern of
the first branch is the source's literal `"githubProvider"`, capital P, which
can never occur in `name.lower()`. -/
def parseObjectReference (refObj : RefObj) (defaultNamespace : Option String) :
    Option ResourceRef :=
  match refGet refObj "name" with
  | none => none
  | some name =>
      if name = "" then none
      else
        if truthy (refGet refObj "apiVersion") = false
            ∨ truthy (refGet refObj "kind") = false then
          if sniffCond refObj name "githubProviderRef" "githubProvider" then
            some ⟨"github.platform.kubecore.io/v1alpha1", "XGitHubProvider",
                  name, pyNamespace refObj defaultNamespace⟩
          else if sniffCond refObj name "githubProjectRef" "project" then
            some ⟨"github.platform.kubecore.io/v1alpha1", "XGitHubProject",
                  name, pyNamespace refObj defaultNamespace⟩
          else if sniffCond refObj name "kubeClusterRef" "cluster" then
            some ⟨"platform.kubecore.io/v1alpha1", "XKubeCluster",
                  name, pyNamespace refObj defaultNamespace⟩
          else if sniffCond refObj name "kubeNetRef" "network" then
            some ⟨"network.platform.kubecore.io/v1alpha1", "XKubeNet",
                  name, pyNamespace refObj defaultNamespace⟩
          else if sniffCond refObj name "kubenvRef" "env" then
            some ⟨"platform.kubecore.io/v1alpha1", "XKubEnv",
                  name, pyNamespace refObj defaultNamespace⟩
          else
            some ⟨(if truthy (refGet refObj "apiVersion") then
                    (refGet refObj "apiVersion").getD "" else "v1"),
                  (if truthy (refGet refObj "kind") then
                    (refGet refObj "kind").getD "" else "ConfigMap"),
                  name, pyNamespace refObj defaultNamespace⟩
        else
          some ⟨(refGet refObj "apiVersion").getD "", (refGet refObj "kind").getD "",
                name, pyNamespace refObj defaultNamespace⟩

/-- C6 counterexample: the reference `\x7b"name": "my-cluster",
"kind": "Secret"\x7d` has an explicit `kind`, but because `apiVersion` is
missing the inference branch runs and the `"cluster" in name.lower()`
heuristic overwrites the explicit kind with `XKubeCluster`. -/
theorem parse_object_reference_counterexample :
    parseObjectReference [("name", "my-cluster"), ("kind", "Secret")] none
      = some ⟨"platform.kubecore.io/v1alpha1", "XKubeCluster", "my-cluster", none⟩
    ∧ (parseObjectReference [("name", "my-cluster"), ("kind", "Secret")] none).map
        ResourceRef.kind ≠ some "Secret" := by
  decide

/-- C6 (amended): sniffing inference runs whenever `apiVersion` **or** `kind`
is missing/empty (not only when both are absent), and a matching heuristic
overwrites both fields, clobbering an explicitly present one; only when both
are present (and nonempty) are they preserved unchanged, and only when no
heuristic matches does the fallback keep present values and default the
missing ones to `v1` / `ConfigMap`. -/
theorem parse_object_reference_amended (refObj : RefObj)
    (defaultNamespace : Option String) (name : String)
    (hname : refGet refObj "name" = some name) (hne : name ≠ "") :
    (∀ av k, refGet refObj "apiVersion" = some av → av ≠ "" →
      refGet refObj "kind" = some k → k ≠ "" →
      parseObjectReference refObj defaultNamespace
        = some ⟨av, k, name, pyNamespace refObj defaultNamespace⟩)
    ∧ ((truthy (refGet refObj "apiVersion") = false
          ∨ truthy (refGet refObj "kind") = false) →
      sniffCond refObj name "githubProviderRef" "githubProvider" = false →
      sniffCond refObj name "githubProjectRef" "project" = false →
      sniffCond refObj name "kubeClusterRef" "cluster" = false →
      sniffCond refObj name "kubeNetRef" "network" = false →
      sniffCond refObj name "kubenvRef" "env" = false →
      parseObjectReference refObj defaultNamespace
        = some ⟨(if truthy (refGet refObj "apiVersion") then
                  (refGet refObj "apiVersion").getD "" else "v1"),
                (if truthy (refGet refObj "kind") then
                  (refGet refObj "kind").getD "" else "ConfigMap"),
                name, pyNamespace refObj defaultNamespace⟩) := by
  constructor
  · intro av k hav havne hk hkne
    have htav : truthy (refGet refObj "apiVersion") = true := by
      rw [hav]; simp [truthy, havne]
    have htk : truthy (refGet refObj "kind") = true := by
      rw [hk]; simp [truthy, hkne]
    unfold parseObjectReference
    rw [hname]
    simp only [if_neg hne]
    rw [if_neg (by rw [htav, htk]; simp)]
    rw [hav, hk]
    rfl
  · intro hinf h1 h2 h3 h4 h5
    unfold parseObjectReference
    rw [hname]
    simp only [if_neg hne]
    rw [if_pos hinf,
      if_neg (by rw [h1]; simp),
      if_neg (by rw [h2]; simp),
      if_neg (by rw [h3]; simp),
      if_neg (by rw [h4]; simp),
      if_neg (by rw [h5]; simp)]

theorem parse_object_reference_amended_witness :
    parseObjectReference
        [("name", "db-creds"), ("apiVersion", "v1"), ("kind", "Secret")] none
      = some ⟨"v1", "Secret", "db-creds", none⟩ :=
  (parse_object_reference_amended
      [("name", "db-creds"), ("apiVersion", "v1"), ("kind", "Secret")] none
      "db-creds" rfl (by decide)).1
    "v1" "Secret" rfl (by decide) rfl (by decide)

/-! ## Transitive-discovery toggle (`query_processor.py` `process_query` and
the RPC layer's context extraction) -/

/-- Modelled from the spec: `KubeCoreContextFunction._extract_context` is not
under `src/` (only its unit tests in `src/test_context_extraction.py`
exercise it); per the spec the `enableTransitiveDiscovery` flag is accepted
from `input.spec.context`, `input.spec`, `input.context` and `input`, with
that precedence, the first location carrying the key deciding the value. -/
def extractTransitiveFlag (specContext specTop inputContext inputTop : Option Bool) :
    Option Bool :=
  specContext.orElse fun _ =>
    specTop.orElse fun _ =>
      inputContext.orElse fun _ => inputTop

/-- `QueryProcessor.process_query`:
`context.get("enableTransitiveDiscovery", True)` — an absent flag means
enabled. -/
def transitiveEnabled (flag : Option Bool) : Bool := flag.getD true

/-- The toggle actually used for a query: the extracted flag, defaulted by
`process_query`. -/
def effectiveTransitiveEnabled (specContext specTop inputContext inputTop : Option Bool) :
    Bool :=
  transitiveEnabled (extractTransitiveFlag specContext specTop inputContext inputTop)

/-- C9: the flag is honoured from any of the four locations with precedence
input.spec.context > input.spec > input.context > input, and when all four
lack it, transitive discovery is enabled. -/
theorem transitive_flag_locations (specContext specTop inputContext inputTop : Option Bool) :
    (∀ b, specContext = some b →
      effectiveTransitiveEnabled specContext specTop inputContext inputTop = b)
    ∧ (specContext = none → ∀ b, specTop = some b →
      effectiveTransitiveEnabled specContext specTop inputContext inputTop = b)
    ∧ (specContext = none → specTop = none → ∀ b, inputContext = some b →
      effectiveTransitiveEnabled specContext specTop inputContext inputTop = b)
    ∧ (specContext = none → specTop = none → inputContext = none →
      ∀ b, inputTop = some b →
      effectiveTransitiveEnabled specContext specTop inputContext inputTop = b)
    ∧ (specContext = none → specTop = none → inputContext = none → inputTop = none →
      effectiveTransitiveEnabled specContext specTop inputContext inputTop = true) := by
  refine ⟨?_, ?_, ?_, ?_, ?_⟩
  · intro b hb
    simp [effectiveTransitiveEnabled, extractTransitiveFlag, transitiveEnabled, hb]
  · intro h1 b hb
    simp [effectiveTransitiveEnabled, extractTransitiveFlag, transitiveEnabled, h1, hb]
  · intro h1 h2 b hb
    simp [effectiveTransitiveEnabled, extractTransitiveFlag, transitiveEnabled, h1, h2, hb]
  · intro h1 h2 h3 b hb
    simp [effectiveTransitiveEnabled, extractTransitiveFlag, transitiveEnabled,
      h1, h2, h3, hb]
  · intro h1 h2 h3 h4
    simp [effectiveTransitiveEnabled, extractTransitiveFlag, transitiveEnabled,
      h1, h2, h3, h4]

theorem transitive_flag_locations_witness :
    effectiveTransitiveEnabled none none none none = true
    ∧ effectiveTransitiveEnabled (some false) (some true) none (some true) = false :=
  ⟨(transitive_flag_locations none none none none).2.2.2.2 rfl rfl rfl rfl,
   (transitive_flag_locations (some false) (some true) none (some true)).1 false rfl⟩

/-! ## Schema blocks (`query_processor.py`, `_process_schema_for_app` and
`_process_transitive_schema`) -/

/-- One entry of a SchemaBlock's `instances` list.  The `summary` payload is
projected away: the dedup logic in `_process_transitive_schema` identifies an
instance by `(name, namespace)` only. -/
structure SchemaInstance where
  name : String
  «namespace» : String
deriving DecidableEq, Repr

/-- The parts of a SchemaBlock the dedup claim is about. -/
structure SchemaBlock where
  discoveryMethod : Option String
  instances : List SchemaInstance
deriving DecidableEq, Repr

/-- `(name, namespace)` keys of an instance list. -/
def instKeys (l : List SchemaInstance) : List (String × String) :=
  l.map fun i => (i.name, i.«namespace»)

/-- Forward path of `_process_schema_for_app` (and its kubesystem / kubenv /
generic twins): one instance per context reference, with
`ref.get("name", "unknown")` and `ref.get("namespace", "default")`; no
deduplication is applied. -/
def forwardInstances (refs : List (Option String × Option String)) :
    List SchemaInstance :=
  refs.map fun r => ⟨r.1.getD "unknown", r.2.getD "default"⟩

/-- The SchemaBlock built by `_process_schema_for_app` (forward references
carry no `discoveryMethod` key). -/
def processSchemaForApp (refs : List (Option String × Option String)) : SchemaBlock :=
  { discoveryMethod := none, instances := forwardInstances refs }

/-- Merge step of `_process_transitive_schema`: into an existing block,
append only instances whose `(name, namespace)` is new and flip the method to
`"hybrid"` when anything was appended; otherwise create a fresh block with
method `"transitive"`. -/
def mergeTransitive (existing : Option SchemaBlock) (newInsts : List SchemaInstance) :
    SchemaBlock :=
  match existing with
  | some b =>
      if (newInsts.filter fun i =>
          !((instKeys b.instances).contains (i.name, i.«namespace»))).isEmpty then b
      else
        { discoveryMethod := some "hybrid",
          instances := b.instances ++ newInsts.filter fun i =>
            !((instKeys b.instances).contains (i.name, i.«namespace»)) }
  | none => { discoveryMethod := some "transitive", instances := newInsts }

/-- C3 counterexample: duplicate `(name, namespace)` pairs in the context's
reference list pass straight into the forward SchemaBlock — nothing
deduplicates the forward path. -/
theorem schema_block_dedup_counterexample :
    ¬ (instKeys (processSchemaForApp
        [(some "demo-dev", some "test"), (some "demo-dev", some "test")]).instances).Nodup := by
  decide

theorem instKeys_filter (p : String × String → Bool) (l : List SchemaInstance) :
    instKeys (l.filter fun i => p (i.name, i.«namespace»)) = (instKeys l).filter p := by
  induction l with
  | nil => rfl
  | cons i rest ih =>
      simp only [instKeys, List.map_cons, List.filter_cons] at ih ⊢
      by_cases hp : p (i.name, i.«namespace») = true
      · simp [hp, ih]
      · simp [hp, ih]

/-- C3 (amended): the transitive merge deduplicates against the existing
block, so a block whose instances already have unique `(name, namespace)`
keys keeps them unique after merging (and a fresh transitive block is unique
whenever the engine's deduplicated hits are); the forward path, however,
copies the reference list verbatim, so its keys are unique exactly when the
projected reference keys are. -/
theorem schema_block_dedup_amended (refs : List (Option String × Option String))
    (b : SchemaBlock) (newInsts : List SchemaInstance)
    (hrefs : (refs.map fun r => (r.1.getD "unknown", r.2.getD "default")).Nodup)
    (hb : (instKeys b.instances).Nodup)
    (hnew : (instKeys newInsts).Nodup) :
    (instKeys (processSchemaForApp refs).instances).Nodup
    ∧ (instKeys (mergeTransitive (some b) newInsts).instances).Nodup
    ∧ (instKeys (mergeTransitive none newInsts).instances).Nodup := by
  refine ⟨?_, ?_, hnew⟩
  · have : instKeys (processSchemaForApp refs).instances
        = refs.map fun r => (r.1.getD "unknown", r.2.getD "default") := by
      simp [processSchemaForApp, forwardInstances, instKeys, List.map_map]
    rw [this]
    exact hrefs
  · have hred : mergeTransitive (some b) newInsts
        = if (newInsts.filter fun i =>
            !((instKeys b.instances).contains (i.name, i.«namespace»))).isEmpty then b
          else { discoveryMethod := some "hybrid",
                 instances := b.instances ++ newInsts.filter fun i =>
                   !((instKeys b.instances).contains (i.name, i.«namespace»)) } := rfl
    rw [hred]
    by_cases hemp : (newInsts.filter fun i =>
        !((instKeys b.instances).contains (i.name, i.«namespace»))).isEmpty = true
    · rw [if_pos hemp]
      exact hb
    · rw [if_neg hemp]
      have hfk : instKeys (newInsts.filter fun i =>
            !((instKeys b.instances).contains (i.name, i.«namespace»)))
          = (instKeys newInsts).filter
              (fun k => !((instKeys b.instances).contains k)) :=
        instKeys_filter (fun k => !((instKeys b.instances).contains k)) newInsts
      show (instKeys (b.instances ++ newInsts.filter fun i =>
          !((instKeys b.instances).contains (i.name, i.«namespace»)))).Nodup
      simp only [instKeys, List.map_append]
      rw [List.nodup_append]
      refine ⟨hb, ?_, ?_⟩
      · have h2 := hfk
        simp only [instKeys] at h2
        rw [h2]
        exact hnew.filter _
      · intro k hk1 hk2
        have h2 := hfk
        simp only [instKeys] at h2
        rw [h2] at hk2
        have hpk := List.of_mem_filter hk2
        have hpk' : ∀ x ∈ b.instances, ¬(x.name, x.«namespace») = k := by
          simpa using hpk
        have hnotmem : k ∉ instKeys b.instances := by
          intro hmem
          rcases List.mem_map.mp hmem with ⟨x, hx, hxk⟩
          exact hpk' x hx hxk
        exact hnotmem (by simpa [instKeys] using hk1)

theorem schema_block_dedup_amended_witness :
    (instKeys (processSchemaForApp [(some "demo-dev", some "test")]).instances).Nodup
    ∧ (instKeys (mergeTransitive
        (some { discoveryMethod := none,
                instances := [⟨"demo-dev", "test"⟩] })
        [⟨"demo-dev", "test"⟩, ⟨"art-api", "test"⟩]).instances).Nodup
    ∧ (instKeys (mergeTransitive none
        [⟨"demo-dev", "test"⟩, ⟨"art-api", "test"⟩]).instances).Nodup :=
  schema_block_dedup_amended [(some "demo-dev", some "test")]
    { discoveryMethod := none, instances := [⟨"demo-dev", "test"⟩] }
    [⟨"demo-dev", "test"⟩, ⟨"art-api", "test"⟩]
    (by decide) (by decide) (by decide)

/-! ## Forward resolver (`resource_resolver.py`, `resolve_resource` and
`resolve_with_relationships`) -/

/-- `ResolutionContext` of `resource_resolver.py` (the cache TTL is carried
by the resolver's cache model instead). -/
structure ResolutionContext where
  maxDepth : Nat
  maxResources : Nat
  visited : List ResourceRef
  resolutionPath : List ResourceRef
  resolvedCount : Nat
deriving DecidableEq, Repr

/-- How one `resolve_resource` call fails: `CircularDependencyError`, or
`ResourceResolutionError` — raised both for the depth/count limits and for
fetch failures (NotFound / permission / connection), distinguished here by
origin. -/
inductive ResolveErr where
  | circular
  | limit
  | fetchFailed
deriving DecidableEq, Repr

/-- Result of `resolve_resource`: the relationships extracted from the
resolved resource on success, plus the updated context and cache.  The fetch
oracle `fetch` stands for `k8s_client.get_resource` followed by
`_extract_relationships` (`none` = the fetch raised).  The `finally` block
pops `resolution_path`, so the returned context's path equals the caller's;
`visited` and `resolved_count` keep their additions. -/
structure ResolveOutcome where
  result : Except ResolveErr (List ResourceRef)
  ctx : ResolutionContext
  cache : List (ResourceRef × List ResourceRef)
deriving Repr

/-- `ResourceResolver.resolve_resource`.  Order as in the source: fresh cache
hit returns early; then the circular check against `context.visited`; then
the depth bound on the active path; then the count bound; then the k8s fetch
(caching the result on success). -/
def resolveResource (fetch : ResourceRef → Option (List ResourceRef))
    (cache : List (ResourceRef × List ResourceRef))
    (ref : ResourceRef) (ctx : ResolutionContext) : ResolveOutcome :=
  match cache.find? (fun p => p.1 == ref) with
  | some p => ⟨.ok p.2, ctx, cache⟩
  | none =>
    if ref ∈ ctx.visited then ⟨.error .circular, ctx, cache⟩
    else if ctx.resolutionPath.length ≥ ctx.maxDepth then ⟨.error .limit, ctx, cache⟩
    else if ctx.resolvedCount ≥ ctx.maxResources then ⟨.error .limit, ctx, cache⟩
    else
      match fetch ref with
      | none => ⟨.error .fetchFailed,
          { ctx with visited := ctx.visited ++ [ref],
                     resolvedCount := ctx.resolvedCount + 1 }, cache⟩
      | some rels => ⟨.ok rels,
          { ctx with visited := ctx.visited ++ [ref],
                     resolvedCount := ctx.resolvedCount + 1 },
          cache ++ [(ref, rels)]⟩

/-- `RESOURCE_RELATIONSHIPS` from `platform_relationships.py`, in source
order. -/
def RESOURCE_RELATIONSHIPS : List (String × List (String × List String)) :=
  [("XGitHubProvider", [("owns", ["XGitHubProject"])]),
   ("XGitHubProject", [("belongsTo", ["XGitHubProvider"]),
                       ("owns", ["XKubeCluster", "XGitHubApp"])]),
   ("XKubeNet", [("supports", ["XKubeCluster"])]),
   ("XKubeCluster", [("belongsTo", ["XGitHubProject"]), ("uses", ["XKubeNet"]),
                     ("hosts", ["XKubeSystem", "XKubEnv"])]),
   ("XKubeSystem", [("runsOn", ["XKubeCluster"])]),
   ("XKubEnv", [("runsOn", ["XKubeCluster"]), ("uses", ["XQualityGate"])]),
   ("XQualityGate", [("appliesTo", ["XKubEnv", "XApp"])]),
   ("XGitHubApp", [("belongsTo", ["XGitHubProject"]), ("sources", ["XApp"])]),
   ("XApp", [("belongsTo", ["XGitHubProject"]), ("sourcedBy", ["XGitHubApp"]),
             ("deploysTo", ["XKubEnv"])])]

/-- `ResourceResolver._get_relationship_type`: first relation of the source
kind whose target list carries the destination kind. -/
def getRelationshipType (fromRef toRef : ResourceRef) : Option String :=
  match (RESOURCE_RELATIONSHIPS.find? fun p => p.1 == fromRef.kind).map Prod.snd with
  | none => none
  | some rels => (rels.find? fun rt => rt.2.contains toRef.kind).map Prod.fst

/-- The default `relationship_types` set of `resolve_with_relationships`. -/
def defaultRelationshipTypes : List String :=
  ["owns", "belongsTo", "uses", "supports", "runsOn", "appliesTo", "sources",
   "sourcedBy", "deploysTo", "hosts"]

/-- State of the BFS loop of `resolve_with_relationships`. -/
structure BfsState where
  ctx : ResolutionContext
  cache : List (ResourceRef × List ResourceRef)
  resolved : List (ResourceRef × List ResourceRef)
  pending : List ResourceRef

/-- The `while pending_refs and context.resolved_count < max_resources` loop:
pop, skip already-resolved refs, resolve, on success enqueue the relationships
passing the type filter and not yet resolved or pending, and on
`CircularDependencyError` / `ResourceResolutionError` log and continue with
the remaining pending refs.  `fuel` bounds the iterations. -/
def bfsGo (fetch : ResourceRef → Option (List ResourceRef))
    (relationshipTypes : List String) :
    Nat → BfsState → List (ResourceRef × List ResourceRef)
  | 0, st => st.resolved
  | fuel + 1, st =>
    match st.pending with
    | [] => st.resolved
    | cur :: rest =>
      if st.ctx.resolvedCount ≥ st.ctx.maxResources then st.resolved
      else if st.resolved.any (fun p => p.1 == cur) then
        bfsGo fetch relationshipTypes fuel { st with pending := rest }
      else
        match (resolveResource fetch st.cache cur st.ctx).result with
        | .error _ =>
            bfsGo fetch relationshipTypes fuel
              { st with ctx := (resolveResource fetch st.cache cur st.ctx).ctx,
                        cache := (resolveResource fetch st.cache cur st.ctx).cache,
                        pending := rest }
        | .ok rels =>
            bfsGo fetch relationshipTypes fuel
              { ctx := (resolveResource fetch st.cache cur st.ctx).ctx,
                cache := (resolveResource fetch st.cache cur st.ctx).cache,
                resolved := st.resolved ++ [(cur, rels)],
                pending := rest ++ rels.foldl (fun acc r =>
                  if (st.resolved ++ [(cur, rels)]).any (fun p => p.1 == r) then acc
                  else if (rest ++ acc).contains r then acc
                  else
                    match getRelationshipType cur r with
                    | some rt =>
                        if relationshipTypes.contains rt then acc ++ [r] else acc
                    | none => acc) [] }

/-- `ResourceResolver.resolve_with_relationships` on a fresh context. -/
def resolveWithRelationships (fetch : ResourceRef → Option (List ResourceRef))
    (fuel : Nat) (ref : ResourceRef) (maxDepth maxResources : Nat)
    (relationshipTypes : List String) : List (ResourceRef × List ResourceRef) :=
  bfsGo fetch relationshipTypes fuel ⟨⟨maxDepth, maxResources, [], [], 0⟩, [], [], [ref]⟩

/-- Demo platform for the BFS: a project owning a cluster and a GitHub app,
an app chain reaching an environment that references the cluster again, and
a quality gate.  The cluster's fetch fails, leaving it in `visited` but not
in the resolved map. -/
def refProj : ResourceRef :=
  ⟨"github.platform.kubecore.io/v1alpha1", "XGitHubProject", "p", some "t"⟩

def refCluster : ResourceRef :=
  ⟨"platform.kubecore.io/v1alpha1", "XKubeCluster", "c", some "t"⟩

def refGhApp : ResourceRef :=
  ⟨"github.platform.kubecore.io/v1alpha1", "XGitHubApp", "g", some "t"⟩

def refApp : ResourceRef := ⟨"app.kubecore.io/v1alpha1", "XApp", "x", some "t"⟩

def refEnv : ResourceRef := ⟨"platform.kubecore.io/v1alpha1", "XKubEnv", "e", some "t"⟩

def refGate : ResourceRef :=
  ⟨"platform.kubecore.io/v1alpha1", "XQualityGate", "q", some "t"⟩

/-- Fetch oracle for the demo platform. -/
def demoFetch (r : ResourceRef) : Option (List ResourceRef) :=
  if r = refProj then some [refCluster, refGhApp]
  else if r = refCluster then none
  else if r = refGhApp then some [refApp]
  else if r = refApp then some [refEnv]
  else if r = refEnv then some [refCluster, refGate]
  else if r = refGate then some []
  else none

/-- C8 counterexample: `resolve_resource` checks `context.visited`, which is
never un-visited after a failed resolution, not the active
`resolution_path`.  In a context whose active path is empty but whose
visited set holds the ref (exactly the state left behind by an earlier
failed resolution of that ref in the same walk, cf. the demo run below),
`resolve_resource` raises `CircularDependencyError` although the ref is not
on the active path. -/
theorem resolve_resource_circular_counterexample :
    (resolveResource (fun _ => some []) [] refCluster
        ⟨3, 50, [refCluster], [], 1⟩).result = .error .circular
    ∧ (⟨3, 50, [refCluster], [], 1⟩ : ResolutionContext).resolutionPath = [] := by
  constructor
  · rfl
  · rfl

/-- C8 (amended): `resolve_resource` raises `CircularDependencyError` exactly
when the ref is not freshly cached and has been visited at any earlier point
of the walk (the visited set outlives the popped path); such a failure
aborts only that ref — in the demo run the cluster's second occurrence
raises the circular error (its fetch failed earlier, keeping it visited and
unresolved), and the BFS still resolves the gate queued behind it,
returning every other resource. -/
theorem resolve_resource_circular_amended :
    (∀ (fetch : ResourceRef → Option (List ResourceRef))
       (cache : List (ResourceRef × List ResourceRef)) (ref : ResourceRef)
       (ctx : ResolutionContext),
      (resolveResource fetch cache ref ctx).result = .error .circular
        ↔ cache.find? (fun p => p.1 == ref) = none ∧ ref ∈ ctx.visited)
    ∧ resolveWithRelationships demoFetch 20 refProj 3 50 defaultRelationshipTypes
        = [(refProj, [refCluster, refGhApp]), (refGhApp, [refApp]),
           (refApp, [refEnv]), (refEnv, [refCluster, refGate]), (refGate, [])] := by
  constructor
  · intro fetch cache ref ctx
    unfold resolveResource
    cases hf : cache.find? (fun p => p.1 == ref) with
    | some p => simp [hf]
    | none =>
        simp only
        by_cases hv : ref ∈ ctx.visited
        · simp [hv, hf]
        · simp only [if_neg hv]
          refine iff_of_false ?_ (fun h => hv h.2)
          by_cases h1 : ctx.resolutionPath.length ≥ ctx.maxDepth
          · simp [h1]
          · by_cases h2 : ctx.resolvedCount ≥ ctx.maxResources
            · simp [h1, h2]
            · cases hfe : fetch ref <;> simp [h1, h2, hfe]
  · rfl

theorem resolve_resource_circular_amended_witness :
    (resolveResource demoFetch [] refCluster ⟨3, 50, [refCluster], [], 1⟩).result
      = .error .circular :=
  (resolve_resource_circular_amended.1 demoFetch [] refCluster
      ⟨3, 50, [refCluster], [], 1⟩).mpr ⟨rfl, by decide⟩

/-! ## Transitive chain traversal (`transitive_discovery.py`,
`TransitiveDiscoveryEngine._traverse_relationship_chain` and the back-ref
search it drives).  The cluster API is a pure list of objects and every List
call succeeds; the intermediate-cache and circuit-breaker config branches are
instantiated disabled, which cannot change which hits a chain yields on a
time-invariant cluster. -/

/-- A `.spec` field value as inspected by `_resource_references_target`: a
single reference object, an array of references (each entry already unwrapped
through the optional nested `ref` key), or anything else. -/
inductive SpecVal where
  | refObj (name «namespace» : Option String)
  | refList (entries : List (Option String × Option String))
  | other
deriving DecidableEq, Repr

/-- One cluster object as returned by `list_resources`. -/
structure ClusterItem where
  apiVersion : String
  kind : String
  metadataName : Option String
  metadataNamespace : Option String
  spec : List (String × SpecVal)
deriving DecidableEq, Repr

/-- The resource dicts flowing through the traversal
(`\x7bname, namespace, apiVersion, kind\x7d`; the raw `data` payload is not
consulted by the traversal). -/
structure ResDict where
  name : Option String
  «namespace» : Option String
  apiVersion : String
  kind : String
deriving DecidableEq, Repr

/-- `ref_field.endswith("Ref")`, via character lists (kernel-computable). -/
def strEndsWith (s suf : String) : Bool :=
  suf.toList.isSuffixOf s.toList

/-- `TransitiveDiscoveryEngine._resource_references_target`: fields ending in
`Ref` hold a single reference object matched on name (and namespace when the
target has one); other declared fields hold reference arrays matched
entry-wise. -/
def resourceReferencesTarget (item : ClusterItem) (refField : String)
    (targetName : String) (targetNamespace : Option String) : Bool :=
  if strEndsWith refField "Ref" then
    match (item.spec.find? fun p => p.1 == refField).map Prod.snd with
    | some (.refObj n ns) =>
        n == some targetName
          && (targetNamespace == none || ns == targetNamespace)
    | _ => false
  else if item.spec.any (fun p => p.1 == refField) then
    match (item.spec.find? fun p => p.1 == refField).map Prod.snd with
    | some (.refList entries) =>
        entries.any fun en =>
          en.1 == some targetName
            && (targetNamespace == none || en.2 == targetNamespace)
    | _ => false
  else false

/-- `_get_search_configs_for_ref_field`: the static
`(kind, api_version)` table per reference field. -/
def refFieldMappings (refField : String) : List (String × String) :=
  if refField = "githubProjectRef" then
    [("XKubeCluster", "platform.kubecore.io/v1alpha1"),
     ("XGitHubApp", "github.platform.kubecore.io/v1alpha1"),
     ("XApp", "app.kubecore.io/v1alpha1"),
     ("XQualityGate", "platform.kubecore.io/v1alpha1")]
  else if refField = "kubeClusterRef" then
    [("XKubEnv", "platform.kubecore.io/v1alpha1"),
     ("XKubeSystem", "platform.kubecore.io/v1alpha1")]
  else if refField = "kubenvRef" then
    [("XApp", "app.kubecore.io/v1alpha1")]
  else if refField = "qualityGates" then
    [("XKubEnv", "platform.kubecore.io/v1alpha1"),
     ("XApp", "app.kubecore.io/v1alpha1")]
  else []

/-- `k8s_client.list_resources` over the pure cluster (`limit=100`). -/
def listResources (cluster : List ClusterItem) (apiVersion kind : String) :
    List ClusterItem :=
  (cluster.filter fun i => i.kind == kind && i.apiVersion == apiVersion).take 100

/-- `_search_resources_with_ref` on the success path: list the kind, keep the
items referencing the target, stop at `max_resources_per_type`, and project
each into a resource dict carrying the searched kind and api version. -/
def searchResourcesWithRef (cluster : List ClusterItem) (maxResourcesPerType : Nat)
    (kind apiVersion refField : String) (targetName : String)
    (targetNamespace : Option String) : List ResDict :=
  (((listResources cluster apiVersion kind).filter fun item =>
      resourceReferencesTarget item refField targetName targetNamespace).take
        maxResourcesPerType).map fun item =>
    ⟨item.metadataName, item.metadataNamespace, apiVersion, kind⟩

/-- `_find_resources_referencing` (intermediate cache disabled): search every
configured kind for the field and concatenate; an unnamed target yields
nothing. -/
def findResourcesReferencing (cluster : List ClusterItem) (maxResourcesPerType : Nat)
    (target : ResDict) (refField : String) : List ResDict :=
  match target.name with
  | none => []
  | some targetName =>
      if targetName = "" then []
      else
        ((refFieldMappings refField).map fun cfg =>
          searchResourcesWithRef cluster maxResourcesPerType cfg.1 cfg.2 refField
            targetName target.«namespace»).flatten

/-- `_find_next_hop_resources`: expand every current resource through the
field and concatenate (the parallel branch gathers results in task order, so
it concatenates identically to the sequential one). -/
def findNextHopResources (cluster : List ClusterItem) (maxResourcesPerType : Nat)
    (current : List ResDict) (refField : String) : List ResDict :=
  (current.map fun t =>
    findResourcesReferencing cluster maxResourcesPerType t refField).flatten

/-- `_dict_to_resource_ref`. -/
def dictToResourceRef (r : ResDict) : ResourceRef :=
  ⟨r.apiVersion, r.kind, r.name.getD "unknown", r.«namespace»⟩

/-- `TransitiveDiscoveredResource` (the constant summary dict is dropped). -/
structure TransitiveDiscoveredResource where
  name : String
  «namespace» : String
  kind : String
  apiVersion : String
  relationshipPath : List ResourceRef
  discoveryHops : Nat
  discoveryMethod : String
  intermediateResources : List ResourceRef
deriving DecidableEq, Repr

/-- The hop loop of `_traverse_relationship_chain`: follow each reference
field in turn; an empty hop abandons the chain; on every hop except the
final one, the first resource of the new frontier is sampled into the
relationship path. -/
def traverseGo (cluster : List ClusterItem) (maxResourcesPerType : Nat) :
    List ResDict → List ResourceRef → List String →
      Option (List ResDict × List ResourceRef)
  | current, path, [] => some (current, path)
  | current, path, refField :: rest =>
      match findNextHopResources cluster maxResourcesPerType current refField with
      | [] => none
      | n :: ns =>
          match rest with
          | [] => some (n :: ns, path)
          | _ :: _ =>
              traverseGo cluster maxResourcesPerType (n :: ns)
                (path ++ [dictToResourceRef n]) rest

/-- `_traverse_relationship_chain`: start from the source, walk the chain,
cap the final frontier at `max_resources_per_type`, and shape each survivor
into a `TransitiveDiscoveredResource` with `hops = len(ref_chain)`,
`method = "transitive-<hops>"`, the recorded path, and
`intermediates = path[1:-1]`. -/
def traverseRelationshipChain (cluster : List ClusterItem)
    (maxResourcesPerType : Nat) (sourceRef : ResDict) (targetKind : String)
    (refChain : List String) : List TransitiveDiscoveredResource :=
  match refChain with
  | [] => []
  | _ :: _ =>
      match traverseGo cluster maxResourcesPerType [sourceRef]
          [dictToResourceRef sourceRef] refChain with
      | none => []
      | some (finalSet, path) =>
          (finalSet.take maxResourcesPerType).map fun r =>
            { name := r.name.getD "unknown"
              «namespace» := r.«namespace».getD "default"
              kind := targetKind
              apiVersion := r.apiVersion
              relationshipPath := path
              discoveryHops := refChain.length
              discoveryMethod := "transitive-" ++ toString refChain.length
              intermediateResources := (path.drop 1).dropLast }

/-- Source dict and single-item cluster for the 1-hop counterexample:
`XKubEnv e` is referenced by `XApp x` via `kubenvRef`. -/
def demoSourceEnv : ResDict :=
  ⟨some "e", some "t", "platform.kubecore.io/v1alpha1", "XKubEnv"⟩

/-- The one `XApp` object of the demo cluster. -/
def demoAppItem : ClusterItem :=
  { apiVersion := "app.kubecore.io/v1alpha1"
    kind := "XApp"
    metadataName := some "x"
    metadataNamespace := some "t"
    spec := [("kubenvRef", .refObj (some "e") (some "t"))] }

/-- C1 counterexample: on the declared 1-hop chain `XKubEnv → XApp` via
`kubenvRef`, the produced hit has `hops = 1` but its recorded path holds only
the source (`_traverse_relationship_chain` samples an intermediate per
non-final hop and never appends the discovered resource), so
`len(path) = 1 ≠ hops + 1 = 2`. -/
theorem transitive_hit_path_counterexample :
    ((traverseRelationshipChain [demoAppItem] 50 demoSourceEnv "XApp"
        ["kubenvRef"]).map fun h => (h.discoveryHops, h.relationshipPath.length))
      = [(1, 1)]
    ∧ ¬ (∀ h ∈ traverseRelationshipChain [demoAppItem] 50 demoSourceEnv "XApp"
          ["kubenvRef"], h.relationshipPath.length = h.discoveryHops + 1) := by
  constructor
  · rfl
  · intro hall
    have h1 := hall ((traverseRelationshipChain [demoAppItem] 50 demoSourceEnv "XApp"
        ["kubenvRef"]).head (by decide)) (List.head_mem _)
    revert h1
    decide

/-- A resource found at one hop is justified by exactly the declared field of
that hop: it is the projection of a cluster object whose `spec[refField]`
references some member of the previous frontier. -/
def justifiedBy (cluster : List ClusterItem) (refField : String)
    (prev : List ResDict) (r : ResDict) : Prop :=
  ∃ t ∈ prev, ∃ tn, t.name = some tn ∧
    ∃ item ∈ cluster,
      resourceReferencesTarget item refField tn t.«namespace» = true
      ∧ r.name = item.metadataName
      ∧ r.«namespace» = item.metadataNamespace
      ∧ (r.kind, r.apiVersion) ∈ refFieldMappings refField

theorem searchResourcesWithRef_mem (cluster : List ClusterItem) (m : Nat)
    (kind apiVersion refField targetName : String) (targetNamespace : Option String)
    (r : ResDict)
    (h : r ∈ searchResourcesWithRef cluster m kind apiVersion refField targetName
          targetNamespace) :
    ∃ item ∈ cluster,
      resourceReferencesTarget item refField targetName targetNamespace = true
      ∧ r = ⟨item.metadataName, item.metadataNamespace, apiVersion, kind⟩ := by
  unfold searchResourcesWithRef at h
  obtain ⟨item, hitem, hproj⟩ := List.mem_map.mp h
  have hfil := List.take_subset m _ hitem
  have hprop := List.mem_filter.mp hfil
  have hcl : item ∈ cluster := by
    have := List.take_subset 100 _ hprop.1
    exact (List.mem_filter.mp this).1
  exact ⟨item, hcl, hprop.2, hproj.symm⟩

theorem findResourcesReferencing_mem (cluster : List ClusterItem) (m : Nat)
    (t : ResDict) (refField : String) (r : ResDict)
    (h : r ∈ findResourcesReferencing cluster m t refField) :
    ∃ tn, t.name = some tn ∧
      ∃ item ∈ cluster,
        resourceReferencesTarget item refField tn t.«namespace» = true
        ∧ r.name = item.metadataName
        ∧ r.«namespace» = item.metadataNamespace
        ∧ (r.kind, r.apiVersion) ∈ refFieldMappings refField := by
  unfold findResourcesReferencing at h
  cases ht : t.name with
  | none => simp only [ht] at h; simp at h
  | some tn =>
      simp only [ht] at h
      by_cases htn : tn = ""
      · simp only [if_pos htn] at h; simp at h
      · simp only [if_neg htn] at h
        obtain ⟨l, hl, hr⟩ := List.mem_flatten.mp h
        obtain ⟨cfg, hcfg, hleq⟩ := List.mem_map.mp hl
        rw [← hleq] at hr
        obtain ⟨item, hcl, href, hproj⟩ :=
          searchResourcesWithRef_mem cluster m cfg.1 cfg.2 refField tn
            t.«namespace» r hr
        refine ⟨tn, rfl, item, hcl, href, ?_, ?_, ?_⟩
        · rw [hproj]
        · rw [hproj]
        · rw [hproj]
          simpa using hcfg

theorem findNextHopResources_justified (cluster : List ClusterItem) (m : Nat)
    (prev : List ResDict) (refField : String) (r : ResDict)
    (h : r ∈ findNextHopResources cluster m prev refField) :
    justifiedBy cluster refField prev r := by
  unfold findNextHopResources at h
  obtain ⟨l, hl, hr⟩ := List.mem_flatten.mp h
  obtain ⟨t, ht, hleq⟩ := List.mem_map.mp hl
  rw [← hleq] at hr
  obtain ⟨tn, htn, item, hcl, href, h1, h2, h3⟩ :=
    findResourcesReferencing_mem cluster m t refField r hr
  exact ⟨t, ht, tn, htn, item, hcl, href, h1, h2, h3⟩

theorem traverseGo_path (cluster : List ClusterItem) (m : Nat) :
    ∀ (chain : List String) (cur : List ResDict) (path : List ResourceRef)
      (fin : List ResDict) (fp : List ResourceRef),
    traverseGo cluster m cur path chain = some (fin, fp) →
    ∃ ext, fp = path ++ ext ∧ ext.length + 1 = max chain.length 1 := by
  intro chain
  induction chain with
  | nil =>
      intro cur path fin fp h
      simp only [traverseGo, Option.some.injEq, Prod.mk.injEq] at h
      exact ⟨[], by simp [h.2.symm], by simp⟩
  | cons f rest ih =>
      intro cur path fin fp h
      unfold traverseGo at h
      cases hn : findNextHopResources cluster m cur f with
      | nil => rw [hn] at h; simp at h
      | cons n ns =>
          rw [hn] at h
          cases rest with
          | nil =>
              simp only [Option.some.injEq, Prod.mk.injEq] at h
              exact ⟨[], by simp [h.2.symm], by simp⟩
          | cons g gs =>
              simp only at h
              obtain ⟨ext', hfp, hlen⟩ :=
                ih (n :: ns) (path ++ [dictToResourceRef n]) fin fp h
              refine ⟨dictToResourceRef n :: ext', by simpa using hfp, ?_⟩
              simp only [List.length_cons] at hlen ⊢
              omega

/-- C1 (amended): every hit of a traversed chain with `hops = k` records a
path of length `k` — the source followed by one sampled intermediate per
non-final hop; the discovered resource itself is not appended.  The path
starts at the source, the method string is `transitive-<k>`, and the
recorded intermediates are `path[1:-1]`.  Every resource a hop yields (the
sampled path entries among them) is justified by exactly the one declared
`refField` of that hop: it is the projection of a cluster object referencing
some member of the previous frontier through that field. -/
theorem transitive_hit_shape_amended (cluster : List ClusterItem) (m : Nat)
    (sourceRef : ResDict) (targetKind : String) (refChain : List String) :
    (∀ hit ∈ traverseRelationshipChain cluster m sourceRef targetKind refChain,
      hit.discoveryHops = refChain.length
      ∧ hit.relationshipPath.length = refChain.length
      ∧ hit.relationshipPath.head? = some (dictToResourceRef sourceRef)
      ∧ hit.discoveryMethod = "transitive-" ++ toString refChain.length
      ∧ hit.intermediateResources = (hit.relationshipPath.drop 1).dropLast)
    ∧ (∀ refField prev r, r ∈ findNextHopResources cluster m prev refField →
        justifiedBy cluster refField prev r) := by
  constructor
  · intro hit hmem
    unfold traverseRelationshipChain at hmem
    cases refChain with
    | nil => simp at hmem
    | cons f rest =>
        cases htr : traverseGo cluster m [sourceRef]
            [dictToResourceRef sourceRef] (f :: rest) with
        | none => rw [htr] at hmem; simp at hmem
        | some out =>
            rw [htr] at hmem
            obtain ⟨fin, fp⟩ := out
            simp only at hmem
            obtain ⟨r, hr, hhit⟩ := List.mem_map.mp hmem
            obtain ⟨ext, hfp, hlen⟩ :=
              traverseGo_path cluster m (f :: rest) [sourceRef]
                [dictToResourceRef sourceRef] fin fp htr
            have hmax : max (f :: rest).length 1 = (f :: rest).length := by
              simp only [List.length_cons]
              omega
            rw [hmax] at hlen
            refine ⟨by rw [← hhit], ?_, ?_, by rw [← hhit], by rw [← hhit]⟩
            · rw [← hhit]
              simp only [hfp, List.length_append, List.length_singleton]
              omega
            · rw [← hhit]
              simp only [hfp]
              rfl
  · intro refField prev r h
    exact findNextHopResources_justified cluster m prev refField r h

/-- The single hit of the demo 1-hop chain. -/
def demoHitC1 : TransitiveDiscoveredResource :=
  { name := "x"
    «namespace» := "t"
    kind := "XApp"
    apiVersion := "app.kubecore.io/v1alpha1"
    relationshipPath := [dictToResourceRef demoSourceEnv]
    discoveryHops := 1
    discoveryMethod := "transitive-1"
    intermediateResources := [] }

theorem transitive_hit_shape_amended_witness :
    demoHitC1.discoveryHops = (["kubenvRef"] : List String).length
    ∧ demoHitC1.relationshipPath.length = (["kubenvRef"] : List String).length
    ∧ demoHitC1.relationshipPath.head? = some (dictToResourceRef demoSourceEnv)
    ∧ demoHitC1.discoveryMethod
        = "transitive-" ++ toString (["kubenvRef"] : List String).length
    ∧ demoHitC1.intermediateResources
        = (demoHitC1.relationshipPath.drop 1).dropLast :=
  (transitive_hit_shape_amended [demoAppItem] 50 demoSourceEnv "XApp"
      ["kubenvRef"]).1 demoHitC1 (by decide)
